import Mathlib

/-!
Verification of the batch orchestration pipeline of `bg_remover.py`
(Background Remover CLI Tool).

The program discovers image files in a folder, removes the background of
each one via an external model call, and packages the successful results
plus a README manifest into a zip archive.  The Lean development below is
a shallow embedding of the Python source: pure fragments become Lean
functions, the fallible external calls (file read, model inference, image
decode, the cv2 blur) become `Option`-valued fields of an `Env` record,
and the effect of the run (`process_folder` / `main`) is an explicit
outcome value.
-/

/-! ### Path helpers (pathlib semantics)

`Path.suffix` and `Path.stem` in CPython's `pathlib`: with
`i = name.rfind('.')`, the suffix is `name[i:]` when `0 < i < len(name)-1`
and `''` otherwise; the stem is correspondingly `name[:i]` or `name`. -/

/-- Index of the last occurrence of `c` in the list, like Python `rfind`
restricted to found/not-found. -/
def rlastIdx (c : Char) : List Char → Option Nat
  | [] => none
  | x :: xs =>
    match rlastIdx c xs with
    | some i => some (i + 1)
    | none => if x = c then some 0 else none

/-- Python `pathlib.PurePath.suffix` of a file name. -/
def suffix (name : String) : String :=
  let cs := name.toList
  match rlastIdx '.' cs with
  | none => ""
  | some i => if 0 < i && i + 1 < cs.length then String.mk (cs.drop i) else ""

/-- Python `pathlib.PurePath.stem` of a file name. -/
def stem (name : String) : String :=
  let cs := name.toList
  match rlastIdx '.' cs with
  | none => name
  | some i => if 0 < i && i + 1 < cs.length then String.mk (cs.take i) else name

/-! ### File discovery (`BackgroundRemover.find_images`, lines 49, 67-73) -/

/-- `BackgroundRemover.SUPPORTED_FORMATS` (line 49): the recognized image
extensions (Python uses a set; only membership matters). -/
def SUPPORTED_FORMATS : List String := [".jpg", ".jpeg", ".png", ".webp", ".bmp"]

/-- One entry of the non-recursive directory listing produced by
`folder_path.iterdir()`: its name and whether it is a regular file
(directories and other non-files have `is_file = false`).  `iterdir` does
not descend into subdirectories, so contents of subdirectories never
appear in the listing at all. -/
structure DirEntry where
  name : String
  is_file : Bool
deriving DecidableEq, Repr

/-- Python `str.lower`, character by character (the extensions compared
against `SUPPORTED_FORMATS` are ASCII, where this coincides with
Python's Unicode lowercasing). -/
def lower (s : String) : String :=
  String.mk (s.data.map Char.toLower)

/-- The filter on line 71: `file_path.is_file() and
file_path.suffix.lower() in self.SUPPORTED_FORMATS`. -/
def isSupportedImage (e : DirEntry) : Bool :=
  e.is_file && SUPPORTED_FORMATS.contains (lower (suffix e.name))

/-- Lexicographic order on paths, stated on the underlying character
lists (Python compares strings by code points; this is the same order as
`≤` on `String`, see `String.le_iff_toList_le`). -/
def pathLe (a b : String) : Prop :=
  a.data ≤ b.data

instance : DecidableRel pathLe := fun a b =>
  inferInstanceAs (Decidable (a.data ≤ b.data))

instance : IsTotal String pathLe :=
  ⟨fun a b => le_total a.data b.data⟩

instance : IsTrans String pathLe :=
  ⟨fun _ _ _ h₁ h₂ => le_trans h₁ h₂⟩

instance : IsAntisymm String pathLe :=
  ⟨fun _ _ h₁ h₂ => String.toList_inj.mp (le_antisymm h₁ h₂)⟩

/-- `BackgroundRemover.find_images` (lines 67-73): keep the regular files
with a recognized extension and return them sorted (`sorted(images)`;
inside one fixed folder, sorting the full paths orders them by file
name). -/
def find_images (listing : List DirEntry) : List String :=
  List.insertionSort pathLe ((listing.filter isSupportedImage).map DirEntry.name)

/-! ### Images and edge enhancement (`_enhance_edges`, lines 98-118)

An in-memory RGBA image is a grid of pixels, each with four channels.
The numpy slices on lines 105-106 split it into the RGB planes and the
alpha plane; `cv2.GaussianBlur` (line 109) is an external call on the
alpha plane, modelled as a fallible function `blur`; `np.dstack`
(line 112) recombines the planes, which requires matching shapes.  The
whole body sits inside a `try`, and on any exception the original image
is returned (lines 116-118). -/

/-- A single-channel plane (e.g. the alpha channel), row-major. -/
abbrev Plane := List (List Nat)

/-- An RGBA image: rows of pixels `(r, g, b, a)`. -/
structure RGBAImage where
  pixels : List (List (Nat × Nat × Nat × Nat))
deriving DecidableEq, Repr

/-- Row lengths of an image: its shape (number of rows and width of
each). -/
def imgShape (img : RGBAImage) : List Nat :=
  img.pixels.map List.length

/-- Row lengths of a plane. -/
def planeShape (p : Plane) : List Nat :=
  p.map List.length

/-- The RGB planes of the image (`img_array[:, :, :3]`, line 105). -/
def rgbOf (img : RGBAImage) : List (List (Nat × Nat × Nat)) :=
  img.pixels.map (List.map (fun p => (p.1, p.2.1, p.2.2.1)))

/-- The alpha plane of the image (`img_array[:, :, 3]`, line 106). -/
def alphaOf (img : RGBAImage) : Plane :=
  img.pixels.map (List.map (fun p => p.2.2.2))

/-- `np.dstack((rgb, alpha_smoothed))` (line 112): recombine the RGB
planes of `img` with a new alpha plane. -/
def combineRGBA (img : RGBAImage) (a : Plane) : RGBAImage :=
  ⟨(img.pixels.zip a).map (fun ra => (ra.1.zip ra.2).map (fun pv => (pv.1.1, pv.1.2.1, pv.1.2.2.1, pv.2)))⟩

/-- The fallible body of `_enhance_edges` (lines 101-114): blur the alpha
plane and recombine; `none` models any exception raised inside the `try`
(a failing `cv2.GaussianBlur`, or a shape mismatch making `np.dstack`
raise). -/
def tryEnhance (blur : Plane → Option Plane) (img : RGBAImage) : Option RGBAImage :=
  match blur (alphaOf img) with
  | none => none
  | some a' =>
    if planeShape a' = imgShape img then some (combineRGBA img a') else none

/-- `BackgroundRemover._enhance_edges` (lines 98-118): run the body;
on any failure return the original image (lines 116-118).  The function
is total: it never propagates an error. -/
def _enhance_edges (blur : Plane → Option Plane) (image : RGBAImage) : RGBAImage :=
  match tryEnhance blur image with
  | some enhanced => enhanced
  | none => image

/-! ### The environment of external effects -/

/-- Raw byte content of a file or of the model output. -/
abbrev Bytes := List Nat

/-- The external world a run interacts with.  Each fallible external
operation returns `none` where the Python call would raise:
`read` is `open(...).read()` (line 79-80), `transform` is
`rembg.remove` with the loaded session (line 83), `decodeRGBA` is
`Image.open(BytesIO(...)).convert("RGBA")` (line 87), `blur` is
`cv2.GaussianBlur` on the alpha plane (line 109), and `archiveWritable`
tells whether `zipfile.ZipFile(output_zip, 'w')` can create the archive
(line 181).  `model_name` and `now` feed the README manifest
(lines 200-223). -/
structure Env where
  model_name : String
  now : String
  read : String → Option Bytes
  transform : Bytes → Option Bytes
  decodeRGBA : Bytes → Option RGBAImage
  blur : Plane → Option Plane
  archiveWritable : Bool

/-- `BackgroundRemover.remove_background` (lines 75-96): read the input
bytes, run the model, decode to RGBA, enhance edges.  The whole body is
inside a `try`; any exception is caught, a warning naming the file is
printed, and `None` is returned (lines 94-96), so a per-item failure is
a returned marker, never a propagated exception. -/
def remove_background (env : Env) (input_path : String) : Option RGBAImage :=
  match env.read input_path with
  | none => none
  | some input_data =>
    match env.transform input_data with
    | none => none
    | some output_data =>
      match env.decodeRGBA output_data with
      | none => none
      | some output_image => some (_enhance_edges env.blur output_image)

/-! ### Batch orchestration (`process_folder`, lines 120-198) -/

/-- The keyword arguments built for `result_image.save` (lines 159-167):
`format` is always `'PNG'`, `optimize` is `quality == 'optimized'`,
`compress_level` is set to 1 only for `'high'` and to 6 only for
`'optimized'`, and left unset for every other quality string. -/
structure SaveKwargs where
  format : String
  optimize : Bool
  compress_level : Option Nat
deriving DecidableEq, Repr

/-- The `save_kwargs` dict as a function of the `quality` string
(lines 159-167). -/
def save_kwargs (quality : String) : SaveKwargs :=
  { format := "PNG"
    optimize := quality == "optimized"
    compress_level :=
      if quality == "high" then some 1
      else if quality == "optimized" then some 6
      else none }

/-- Content of a processed PNG written into the temporary directory
(line 169): the image together with the save settings used to encode
it.  The PNG encoding itself is external; the pair determines the
bytes. -/
abbrev PNGData := RGBAImage × SaveKwargs

/-- Output file name for a source file (line 155):
`f"{img_path.stem}_no_bg.png"`. -/
def outName (f : String) : String :=
  stem f ++ "_no_bg.png"

/-- Accumulated state of the processing loop (lines 141-172):
`processed` is the `processed_files` list of archive names, in append
order; `temp` is the temporary directory, a write-history map from file
name to content in which the head is the most recent write (a later save
to the same name overwrites, line 169); `failures` are the source names
whose `remove_background` returned `None` and whose failure was recorded
by the warning on line 95. -/
structure LoopResult where
  processed : List String
  temp : List (String × PNGData)
  failures : List String
deriving Repr

/-- The per-item loop of `process_folder` (lines 147-172): for each
source file in order, run `remove_background`; on success save the PNG
under `outName` into the temporary directory and append the name to
`processed_files`; on failure record the item and continue.  The file at
the head of the list is processed first, so writes of the remaining
files are more recent and sit closer to the head of `temp`. -/
def processLoop (env : Env) (quality : String) : List String → LoopResult
  | [] => ⟨[], [], []⟩
  | f :: fs =>
    let r := processLoop env quality fs
    match remove_background env f with
    | none => ⟨r.processed, r.temp, f :: r.failures⟩
    | some img =>
      ⟨outName f :: r.processed, r.temp ++ [(outName f, (img, save_kwargs quality))], r.failures⟩

/-- One entry of the zip archive: either a PNG image entry written by
`zipf.write(file_path, archive_name)` (line 188) or a text entry written
by `zipf.writestr` (line 192). -/
inductive ZEntry where
  | image (name : String) (data : PNGData)
  | text (name : String) (content : String)
deriving DecidableEq, Repr

/-- Name of an archive entry. -/
def ZEntry.entryName : ZEntry → String
  | .image n _ => n
  | .text n _ => n

/-- Whether an archive entry is an image entry. -/
def ZEntry.isImage : ZEntry → Bool
  | .image _ _ => true
  | .text _ _ => false

/-- The image entries of an archive, in order. -/
def imageEntries (z : List ZEntry) : List ZEntry :=
  z.filter ZEntry.isImage

/-- `_generate_readme` (lines 200-223): the manifest text, a function of
the model name, the timestamp and the processed count. -/
def _generate_readme (model_name now : String) (count : Nat) : String :=
  "Background Removal Results\n========================\n\nSummary:\n- Total images processed: "
    ++ toString count
    ++ "\n- AI Model used: " ++ model_name
    ++ "\n- Output format: PNG with transparency\n- Generated on: " ++ now
    ++ "\n\nFiles:\nAll images have been processed to remove backgrounds and saved as PNG files\nwith transparent backgrounds. The naming convention is:\noriginal_filename_no_bg.png\n\nGenerated by Background Remover CLI Tool\n"

/-- The image-entry writes of the packaging loop (lines 185-188): for
each `(file_path, archive_name)` in `processed_files`, in order, the
current content of the temporary file is written into the archive under
`archive_name`.  All saves happened before packaging, so the content is
the most recent write for that name (`List.lookup` finds the head-most,
i.e. most recent, binding); every processed name was saved, so the
lookup never misses on states the program reaches. -/
def zipWrites (processed : List String) (temp : List (String × PNGData)) : List ZEntry :=
  processed.filterMap (fun n => (List.lookup n temp).map (ZEntry.image n))

/-- The full archive produced by the packaging step (lines 181-192):
the image entries in `processed_files` order, then the README manifest
written last (line 192). -/
def buildZip (processed : List String) (temp : List (String × PNGData)) (readme : String) : List ZEntry :=
  zipWrites processed temp ++ [ZEntry.text "README.txt" readme]

/-- State of the input folder as the filesystem presents it:
whether the path exists, whether it is a directory, and its
(non-recursive, arbitrarily ordered) listing. -/
structure Folder where
  exists_ : Bool
  is_dir : Bool
  listing : List DirEntry

/-- Outcome of `process_folder`: `earlyFail` is a `return False` taken
before the archive is opened (lines 127, 134, 176), `success z` is
`return True` with archive `z` fully written (line 198), `exn` is an
exception escaping the packaging step (e.g. the archive cannot be
created), which the caller in `main` turns into exit code 1. -/
inductive ProcessOutcome where
  | earlyFail
  | success (zip : List ZEntry)
  | exn
deriving DecidableEq, Repr

/-- `BackgroundRemover.process_folder` (lines 120-198): validate the
input folder (lines 125-127), discover images (lines 130-134), process
each (lines 139-172), fail if nothing succeeded (lines 174-176),
otherwise package the archive (lines 179-192) and return `True`. -/
def process_folder (env : Env) (folder : Folder) (quality : String) : ProcessOutcome :=
  if folder.exists_ && folder.is_dir then
    let image_files := find_images folder.listing
    if image_files.isEmpty then ProcessOutcome.earlyFail
    else
      let r := processLoop env quality image_files
      if r.processed.isEmpty then ProcessOutcome.earlyFail
      else if env.archiveWritable then
        ProcessOutcome.success
          (buildZip r.processed r.temp (_generate_readme env.model_name env.now r.processed.length))
      else ProcessOutcome.exn
  else ProcessOutcome.earlyFail

/-! ### Packaging disk states (lines 181-192)

`zipfile.ZipFile(output_zip, 'w', ...)` opens the archive directly at
the output path, creating/truncating the file there at once; each
`zipf.write` / `zipf.writestr` then appends one entry.  The disk state
at the output path during packaging is therefore a growing prefix of the
entry list; no temporary location and no rename are involved. -/

/-- Disk content at the output path during the packaging step, indexed
by the number of writes performed so far: `none` would mean no file at
the output path; state `k` holds the first `k` entries.  State 0 is the
moment just after `ZipFile(output_zip, 'w')` truncated/created the
file; the final state holds the complete archive.  An interrupt after
`k` writes leaves state `k` on disk. -/
def packagingDiskStates (entries : List ZEntry) : List (Option (List ZEntry)) :=
  (List.range (entries.length + 1)).map (fun k => some (entries.take k))

/-! ### The CLI entry point (`main`, lines 234-299) -/

/-- The external conditions `main` runs under: whether
`new_session(model)` succeeds in `_initialize_model` (lines 57-65),
whether the user interrupts the run (line 294), and the environment,
folder and quality passed to `process_folder`. -/
structure World where
  modelLoadOk : Bool
  interrupted : Bool
  env : Env
  folder : Folder
  quality : String

/-- `main` together with `BackgroundRemover._initialize_model`
(lines 57-65, 282-299): returns the process exit code and the outcome of
`process_folder` (`none` when processing never ran).  A model-load
failure calls `sys.exit(1)` inside `_initialize_model`, before any
processing; `KeyboardInterrupt` exits 1; `process_folder` returning
`True` exits 0, returning `False` exits 1; an exception escaping it is
caught by the `except Exception` handler and exits 1. -/
def main_run (w : World) : Nat × Option ProcessOutcome :=
  if !w.modelLoadOk then (1, none)
  else if w.interrupted then (1, none)
  else
    match process_folder w.env w.folder w.quality with
    | ProcessOutcome.success z => (0, some (ProcessOutcome.success z))
    | o => (1, some o)

/-! ### Theorems -/

/-- Helper: the list `find_images` sorts, before sorting. -/
def matchingNames (listing : List DirEntry) : List String :=
  (listing.filter isSupportedImage).map DirEntry.name

theorem find_images_perm (listing : List DirEntry) :
    (find_images listing).Perm (matchingNames listing) :=
  List.perm_insertionSort _ _

theorem find_images_sorted_pathLe (listing : List DirEntry) :
    List.Sorted pathLe (find_images listing) :=
  List.sorted_insertionSort _ _

theorem find_images_sorted (listing : List DirEntry) :
    List.Sorted (· ≤ ·) (find_images listing) :=
  (find_images_sorted_pathLe listing).imp
    (fun h => String.le_iff_toList_le.mpr h)

/-- C2: for every directory listing, `find_images` returns exactly the
regular files whose extension is (case-insensitively) one of
jpg/jpeg/png/webp/bmp, as a list sorted by path, with the same length as
the set of matching files; the result is independent of the order in
which the listing presents the entries, and non-files (directories; and
subdirectory contents, which a non-recursive `iterdir` listing never
contains) are never included. -/
theorem find_images_correct (l₁ l₂ : List DirEntry) (hperm : l₁.Perm l₂) :
    List.Sorted (· ≤ ·) (find_images l₁)
    ∧ (∀ a : String, a ∈ find_images l₁ ↔
        ∃ e ∈ l₁, e.is_file = true
          ∧ SUPPORTED_FORMATS.contains (lower (suffix e.name)) = true
          ∧ e.name = a)
    ∧ (find_images l₁).length = (l₁.filter isSupportedImage).length
    ∧ find_images l₁ = find_images l₂ := by
  refine ⟨find_images_sorted l₁, ?_, ?_, ?_⟩
  · intro a
    rw [(find_images_perm l₁).mem_iff]
    simp only [matchingNames, List.mem_map, List.mem_filter, isSupportedImage,
      Bool.and_eq_true]
    constructor
    · rintro ⟨e, ⟨he, hf, hs⟩, rfl⟩
      exact ⟨e, he, hf, hs, rfl⟩
    · rintro ⟨e, he, hf, hs, rfl⟩
      exact ⟨e, ⟨he, hf, hs⟩, rfl⟩
  · rw [(find_images_perm l₁).length_eq, matchingNames, List.length_map]
  · refine List.eq_of_perm_of_sorted ?_
      (find_images_sorted_pathLe l₁) (find_images_sorted_pathLe l₂)
    refine (find_images_perm l₁).trans (List.Perm.trans ?_ (find_images_perm l₂).symm)
    exact (hperm.filter isSupportedImage).map DirEntry.name

/-- Witness for C2 at a concrete listing: three recognized files (one
with an uppercase extension) among a text file and a directory, listed
in two different orders. -/
theorem find_images_correct_witness :
    ([⟨"b.PNG", true⟩, ⟨"notes.txt", true⟩, ⟨"a.jpg", true⟩, ⟨"sub", false⟩] : List DirEntry).Perm
      [⟨"sub", false⟩, ⟨"a.jpg", true⟩, ⟨"b.PNG", true⟩, ⟨"notes.txt", true⟩]
    ∧ find_images [⟨"b.PNG", true⟩, ⟨"notes.txt", true⟩, ⟨"a.jpg", true⟩, ⟨"sub", false⟩]
        = find_images [⟨"sub", false⟩, ⟨"a.jpg", true⟩, ⟨"b.PNG", true⟩, ⟨"notes.txt", true⟩]
    ∧ find_images [⟨"b.PNG", true⟩, ⟨"notes.txt", true⟩, ⟨"a.jpg", true⟩, ⟨"sub", false⟩]
        = ["a.jpg", "b.PNG"] := by
  have hperm :
      ([⟨"b.PNG", true⟩, ⟨"notes.txt", true⟩, ⟨"a.jpg", true⟩, ⟨"sub", false⟩] : List DirEntry).Perm
        [⟨"sub", false⟩, ⟨"a.jpg", true⟩, ⟨"b.PNG", true⟩, ⟨"notes.txt", true⟩] := by
    decide
  exact ⟨hperm,
    (find_images_correct _ _ hperm).2.2.2,
    by decide⟩

/-- Helper: recombining one pixel row with one alpha row of the same
length keeps the row length and the RGB values and installs the new
alpha values. -/
theorem row_recombine (row : List (Nat × Nat × Nat × Nat)) (arow : List Nat)
    (h : row.length = arow.length) :
    ((row.zip arow).map (fun pv => (pv.1.1, pv.1.2.1, pv.1.2.2.1, pv.2))).length = row.length
    ∧ ((row.zip arow).map (fun pv => (pv.1.1, pv.1.2.1, pv.1.2.2.1, pv.2))).map
        (fun p => (p.1, p.2.1, p.2.2.1)) = row.map (fun p => (p.1, p.2.1, p.2.2.1))
    ∧ ((row.zip arow).map (fun pv => (pv.1.1, pv.1.2.1, pv.1.2.2.1, pv.2))).map
        (fun p => p.2.2.2) = arow := by
  induction row generalizing arow with
  | nil =>
    cases arow with
    | nil => simp
    | cons a as => simp at h
  | cons p ps ih =>
    cases arow with
    | nil => simp at h
    | cons a as =>
      simp only [List.length_cons, Nat.add_right_cancel_iff] at h
      obtain ⟨h1, h2, h3⟩ := ih as h
      simp [List.zip_cons_cons, h1, h2, h3]

/-- Helper: `combineRGBA` with a matching-shape alpha plane preserves the
shape and the RGB planes and installs the new alpha plane. -/
theorem combineRGBA_spec (rows : List (List (Nat × Nat × Nat × Nat))) (a : Plane)
    (h : planeShape a = imgShape ⟨rows⟩) :
    imgShape (combineRGBA ⟨rows⟩ a) = imgShape ⟨rows⟩
    ∧ rgbOf (combineRGBA ⟨rows⟩ a) = rgbOf ⟨rows⟩
    ∧ alphaOf (combineRGBA ⟨rows⟩ a) = a := by
  induction rows generalizing a with
  | nil =>
    cases a with
    | nil => simp [combineRGBA, imgShape, rgbOf, alphaOf]
    | cons r rs => simp [planeShape, imgShape] at h
  | cons row rows ih =>
    cases a with
    | nil => simp [planeShape, imgShape] at h
    | cons arow arest =>
      simp only [planeShape, imgShape, List.map_cons, List.cons.injEq] at h
      obtain ⟨hlen, hrest⟩ := h
      obtain ⟨ih1, ih2, ih3⟩ := ih arest (by simpa [planeShape, imgShape] using hrest)
      obtain ⟨r1, r2, r3⟩ := row_recombine row arow hlen.symm
      refine ⟨?_, ?_, ?_⟩
      · simp only [combineRGBA, imgShape, List.zip_cons_cons, List.map_cons] at ih1 ⊢
        exact congrArg₂ List.cons r1 ih1
      · simp only [combineRGBA, rgbOf, List.zip_cons_cons, List.map_cons] at ih2 ⊢
        exact congrArg₂ List.cons r2 ih2
      · simp only [combineRGBA, alphaOf, List.zip_cons_cons, List.map_cons] at ih3 ⊢
        exact congrArg₂ List.cons r3 ih3

/-- C5: `_enhance_edges` never propagates an error: it is a total
function, and whenever its fallible body fails (the blur call or the
plane recombination raises, modelled by `tryEnhance` returning `none`),
it returns the input image unchanged (lines 116-118). -/
theorem enhance_edges_never_raises (blur : Plane → Option Plane) (image : RGBAImage)
    (h : tryEnhance blur image = none) :
    _enhance_edges blur image = image := by
  simp [_enhance_edges, h]

/-- Witness for C5: a blur call that always fails leaves a concrete
image unchanged. -/
theorem enhance_edges_never_raises_witness :
    tryEnhance (fun _ => none) ⟨[[(1, 2, 3, 4)]]⟩ = none
    ∧ _enhance_edges (fun _ => none) ⟨[[(1, 2, 3, 4)]]⟩ = ⟨[[(1, 2, 3, 4)]]⟩ :=
  ⟨rfl, enhance_edges_never_raises (fun _ => none) ⟨[[(1, 2, 3, 4)]]⟩ rfl⟩

/-- C8: when the body of `_enhance_edges` succeeds, only the alpha
channel changes: the output has the same shape as the input, the RGB
planes are pixel-identical, and the alpha plane is exactly the blurred
alpha plane. -/
theorem enhance_edges_alpha_only (blur : Plane → Option Plane) (img e : RGBAImage)
    (h : tryEnhance blur img = some e) :
    imgShape e = imgShape img
    ∧ rgbOf e = rgbOf img
    ∧ blur (alphaOf img) = some (alphaOf e) := by
  cases hb : blur (alphaOf img) with
  | none => simp only [tryEnhance, hb] at h; cases h
  | some a' =>
    simp only [tryEnhance, hb] at h
    split_ifs at h with hs
    obtain rfl : combineRGBA img a' = e := Option.some.inj h
    obtain ⟨rows⟩ := img
    obtain ⟨c1, c2, c3⟩ := combineRGBA_spec rows a' hs
    exact ⟨c1, c2, by rw [c3]⟩

/-- Witness for C8: a concrete blur that increments every alpha value on
a 1x2 image; the RGB values survive unchanged and the alpha plane is the
blurred one. -/
theorem enhance_edges_alpha_only_witness :
    tryEnhance (fun p => some (p.map (List.map (fun a => a + 1)))) ⟨[[(1, 2, 3, 4), (5, 6, 7, 8)]]⟩
      = some ⟨[[(1, 2, 3, 5), (5, 6, 7, 9)]]⟩
    ∧ imgShape ⟨[[(1, 2, 3, 5), (5, 6, 7, 9)]]⟩ = imgShape ⟨[[(1, 2, 3, 4), (5, 6, 7, 8)]]⟩
    ∧ rgbOf ⟨[[(1, 2, 3, 5), (5, 6, 7, 9)]]⟩ = rgbOf ⟨[[(1, 2, 3, 4), (5, 6, 7, 8)]]⟩
    ∧ (fun p => some (p.map (List.map (fun a => a + 1)))) (alphaOf ⟨[[(1, 2, 3, 4), (5, 6, 7, 8)]]⟩)
        = some (alphaOf ⟨[[(1, 2, 3, 5), (5, 6, 7, 9)]]⟩) := by
  have h : tryEnhance (fun p => some (p.map (List.map (fun a => a + 1))))
      ⟨[[(1, 2, 3, 4), (5, 6, 7, 8)]]⟩ = some ⟨[[(1, 2, 3, 5), (5, 6, 7, 9)]]⟩ := by decide
  have := enhance_edges_alpha_only (fun p => some (p.map (List.map (fun a => a + 1))))
    ⟨[[(1, 2, 3, 4), (5, 6, 7, 8)]]⟩ ⟨[[(1, 2, 3, 5), (5, 6, 7, 9)]]⟩ h
  exact ⟨h, this.1, this.2.1, this.2.2⟩

/-- Helper: the names accumulated in `processed_files` are exactly the
output names of the sources whose `remove_background` succeeded, in
order. -/
theorem processLoop_processed (env : Env) (q : String) (files : List String) :
    (processLoop env q files).processed
      = (files.filter (fun f => (remove_background env f).isSome)).map outName := by
  induction files with
  | nil => rfl
  | cons f fs ih =>
    cases h : remove_background env f <;>
      simp [processLoop, h, ih]

/-- Helper: the recorded failures are exactly the sources whose
`remove_background` failed, in order. -/
theorem processLoop_failures (env : Env) (q : String) (files : List String) :
    (processLoop env q files).failures
      = files.filter (fun f => !(remove_background env f).isSome) := by
  induction files with
  | nil => rfl
  | cons f fs ih =>
    cases h : remove_background env f <;>
      simp [processLoop, h, ih]

/-- Helper: in a duplicate-free list where exactly one element `K` fails
a test, filtering by the test removes exactly `K`, and filtering by its
negation keeps exactly `K`. -/
theorem filter_single_failure (p : String → Bool) (files : List String) (K : String)
    (hmem : K ∈ files) (hnd : files.Nodup) (hK : p K = false)
    (hothers : ∀ f ∈ files, f ≠ K → p f = true) :
    files.filter p = files.erase K ∧ files.filter (fun f => !p f) = [K] := by
  induction files with
  | nil => cases hmem
  | cons f fs ih =>
    by_cases hfK : f = K
    · subst hfK
      have hnotmem : f ∉ fs := (List.nodup_cons.mp hnd).1
      have hall : ∀ g ∈ fs, p g = true := fun g hg =>
        hothers g (List.mem_cons_of_mem f hg) (fun hgf => hnotmem (hgf ▸ hg))
      constructor
      · rw [List.erase_cons_head]
        simp only [List.filter_cons, hK]
        exact List.filter_eq_self.mpr hall
      · simp only [List.filter_cons, hK]
        simp only [Bool.not_false, if_true]
        have hnil : fs.filter (fun g => !p g) = [] :=
          List.filter_eq_nil_iff.mpr (fun g hg => by simp [hall g hg])
        simp [hnil]
    · have hmem' : K ∈ fs := by
        cases List.mem_cons.mp hmem with
        | inl h => exact absurd h.symm hfK
        | inr h => exact h
      have hpf : p f = true := hothers f (List.mem_cons_self f fs) hfK
      obtain ⟨ih1, ih2⟩ := ih hmem' (List.nodup_cons.mp hnd).2
        (fun g hg hgK => hothers g (List.mem_cons_of_mem f hg) hgK)
      constructor
      · rw [List.erase_cons_tail]
        · simp only [List.filter_cons, hpf, if_true, ih1]
        · simp [hfK]
      · simp only [List.filter_cons, hpf, Bool.not_true, if_false]
        simpa using ih2

/-- C1: in a batch where exactly one item `K` fails (its
`remove_background` returns the failure marker `none` instead of
propagating an exception, lines 94-96) and every other item succeeds,
the loop records `K` as the single failure and continues: the
accumulated successes number `total - 1` and `K` is not among the
successful sources. -/
theorem single_failure_batch (env : Env) (q : String) (files : List String) (K : String)
    (hmem : K ∈ files) (hnd : files.Nodup)
    (hK : remove_background env K = none)
    (hothers : ∀ f ∈ files, f ≠ K → (remove_background env f).isSome = true) :
    remove_background env K = none
    ∧ (processLoop env q files).processed.length = files.length - 1
    ∧ (processLoop env q files).failures = [K]
    ∧ K ∉ files.filter (fun f => (remove_background env f).isSome) := by
  obtain ⟨h1, h2⟩ := filter_single_failure (fun f => (remove_background env f).isSome)
    files K hmem hnd (by simp [hK]) hothers
  refine ⟨hK, ?_, ?_, ?_⟩
  · rw [processLoop_processed, List.length_map, h1, List.length_erase_of_mem hmem]
  · rw [processLoop_failures, h2]
  · intro hKm
    rw [List.mem_filter] at hKm
    simp [hK] at hKm

/-- Concrete environment in which the model transform fails exactly on
the bytes of `kk.jpg` (file contents are modelled as the length of the
file name, so `kk.jpg` reads as `[6]`). -/
def envOneFail : Env :=
  { model_name := "u2net"
    now := "2026-10-12 00:00:00"
    read := fun s => some [s.length]
    transform := fun b => if b = [6] then none else some b
    decodeRGBA := fun _ => some ⟨[[(1, 2, 3, 4)]]⟩
    blur := fun p => some p
    archiveWritable := true }

/-- Witness for C1: of the two files `a.jpg` and `kk.jpg`, only `kk.jpg`
fails; the loop yields one success and records exactly that failure. -/
theorem single_failure_batch_witness :
    remove_background envOneFail "kk.jpg" = none
    ∧ (processLoop envOneFail "high" ["a.jpg", "kk.jpg"]).processed.length = 2 - 1
    ∧ (processLoop envOneFail "high" ["a.jpg", "kk.jpg"]).failures = ["kk.jpg"]
    ∧ "kk.jpg" ∉ ["a.jpg", "kk.jpg"].filter (fun f => (remove_background envOneFail f).isSome) := by
  exact single_failure_batch envOneFail "high" ["a.jpg", "kk.jpg"] "kk.jpg"
    (by decide) (by decide) (by decide) (by decide)

/-- C6: for an existing directory with no recognized files, discovery
returns the empty sequence (a value, not an error, since `find_images`
is total), and `process_folder` then returns `False` on line 134 before
any archive is opened (`earlyFail`). -/
theorem empty_discovery_overall_failure (env : Env) (folder : Folder) (q : String)
    (hex : folder.exists_ = true) (hdir : folder.is_dir = true)
    (hempty : folder.listing.filter isSupportedImage = []) :
    find_images folder.listing = []
    ∧ process_folder env folder q = ProcessOutcome.earlyFail := by
  have hfi : find_images folder.listing = [] := by
    unfold find_images
    rw [hempty]
    rfl
  refine ⟨hfi, ?_⟩
  simp [process_folder, hex, hdir, hfi]

/-- Witness for C6: a directory holding only a text file. -/
theorem empty_discovery_overall_failure_witness :
    find_images [⟨"notes.txt", true⟩, ⟨"sub", false⟩] = []
    ∧ process_folder envOneFail ⟨true, true, [⟨"notes.txt", true⟩, ⟨"sub", false⟩]⟩ "high"
        = ProcessOutcome.earlyFail := by
  exact empty_discovery_overall_failure envOneFail
    ⟨true, true, [⟨"notes.txt", true⟩, ⟨"sub", false⟩]⟩ "high" rfl rfl (by decide)

/-- Helper: the keys of the temporary directory are the processed names
(most recent write first, i.e. in reverse processing order). -/
theorem processLoop_temp_keys (env : Env) (q : String) (files : List String) :
    (processLoop env q files).temp.map Prod.fst
      = (processLoop env q files).processed.reverse := by
  induction files with
  | nil => rfl
  | cons f fs ih =>
    cases h : remove_background env f <;>
      simp [processLoop, h, ih]

/-- Helper: a name among the keys of an association list has a
successful lookup. -/
theorem lookup_isSome_of_mem_keys {β : Type} (l : List (String × β)) (a : String)
    (h : a ∈ l.map Prod.fst) : (List.lookup a l).isSome = true := by
  induction l with
  | nil => cases h
  | cons kv t ih =>
    by_cases hk : a = kv.1
    · simp [List.lookup, hk]
    · have : a ∈ t.map Prod.fst := by
        rcases List.mem_cons.mp h with h' | h'
        · exact absurd h' hk
        · exact h'
      have hbeq : (a == kv.1) = false := beq_eq_false_iff_ne.mpr hk
      simp [List.lookup, hbeq, ih this]

/-- Helper: every processed name can be looked up in the temporary
directory the loop produced. -/
theorem processLoop_lookup (env : Env) (q : String) (files : List String) (n : String)
    (hn : n ∈ (processLoop env q files).processed) :
    (List.lookup n (processLoop env q files).temp).isSome = true := by
  apply lookup_isSome_of_mem_keys
  rw [processLoop_temp_keys]
  simpa using hn

/-- Helper: when every processed name resolves in the temporary
directory, the packaging loop writes one image entry per processed name,
in order. -/
theorem zipWrites_spec (processed : List String) (temp : List (String × PNGData))
    (h : ∀ n ∈ processed, (List.lookup n temp).isSome = true) :
    (zipWrites processed temp).length = processed.length
    ∧ (zipWrites processed temp).map ZEntry.entryName = processed
    ∧ ∀ e ∈ zipWrites processed temp, e.isImage = true := by
  induction processed with
  | nil => exact ⟨rfl, rfl, by intro e he; cases he⟩
  | cons n ns ih =>
    obtain ⟨d, hd⟩ := Option.isSome_iff_exists.mp (h n (List.mem_cons_self n ns))
    obtain ⟨ih1, ih2, ih3⟩ := ih (fun m hm => h m (List.mem_cons_of_mem n hm))
    have hcons : zipWrites (n :: ns) temp = ZEntry.image n d :: zipWrites ns temp := by
      simp [zipWrites, List.filterMap_cons, hd]
    refine ⟨?_, ?_, ?_⟩
    · simp [hcons, ih1]
    · simp [hcons, ZEntry.entryName, ih2]
    · intro e he
      rw [hcons] at he
      rcases List.mem_cons.mp he with rfl | he'
      · rfl
      · exact ih3 e he'

/-- Helper: an image entry in the packaging output holds exactly the
current (most recent) content of the temporary file of that name. -/
theorem zipWrites_content (processed : List String) (temp : List (String × PNGData))
    (n : String) (d : PNGData) (h : ZEntry.image n d ∈ zipWrites processed temp) :
    List.lookup n temp = some d := by
  rw [zipWrites, List.mem_filterMap] at h
  obtain ⟨a, _, ha⟩ := h
  cases hl : List.lookup a temp with
  | none => rw [hl] at ha; cases ha
  | some v =>
    rw [hl] at ha
    obtain ⟨rfl, rfl⟩ : a = n ∧ v = d := by
      cases ha
      exact ⟨rfl, rfl⟩
    exact hl

/-- Helper: inversion of a successful `process_folder` run: the folder
was valid, discovery was nonempty, at least one item succeeded, the
archive was creatable, and the returned archive is the built zip. -/
theorem process_folder_success (env : Env) (folder : Folder) (q : String) (z : List ZEntry)
    (h : process_folder env folder q = ProcessOutcome.success z) :
    folder.exists_ = true ∧ folder.is_dir = true
    ∧ find_images folder.listing ≠ []
    ∧ (processLoop env q (find_images folder.listing)).processed ≠ []
    ∧ env.archiveWritable = true
    ∧ z = buildZip (processLoop env q (find_images folder.listing)).processed
        (processLoop env q (find_images folder.listing)).temp
        (_generate_readme env.model_name env.now
          (processLoop env q (find_images folder.listing)).processed.length) := by
  by_cases hv : folder.exists_ && folder.is_dir
  · rw [Bool.and_eq_true] at hv
    simp only [process_folder, hv.1, hv.2, Bool.and_self, if_true] at h
    by_cases hfi : (find_images folder.listing).isEmpty
    · rw [if_pos hfi] at h
      cases h
    · rw [if_neg hfi] at h
      by_cases hpr : (processLoop env q (find_images folder.listing)).processed.isEmpty
      · rw [if_pos hpr] at h
        cases h
      · rw [if_neg hpr] at h
        by_cases hw : env.archiveWritable
        · rw [if_pos hw] at h
          cases h
          exact ⟨hv.1, hv.2, by simpa [List.isEmpty_iff] using hfi,
            by simpa [List.isEmpty_iff] using hpr, hw, rfl⟩
        · rw [if_neg hw] at h
          cases h
  · simp only [process_folder, hv, if_false] at h
    cases h

/-- C3: a successful batch of `S` processed images yields an archive
with exactly `S` image entries plus exactly one manifest entry (the text
README); the image entry names are `{stem}_no_bg.png` of their sources;
colliding names (sources differing only by extension) are not
deduplicated — each occurrence is a separate entry whose content is the
most recent temporary-file write for that name (last processed wins). -/
theorem archive_contents (env : Env) (folder : Folder) (q : String) (z : List ZEntry)
    (h : process_folder env folder q = ProcessOutcome.success z) :
    z.length = (processLoop env q (find_images folder.listing)).processed.length + 1
    ∧ (imageEntries z).length = (processLoop env q (find_images folder.listing)).processed.length
    ∧ (imageEntries z).map ZEntry.entryName
        = (processLoop env q (find_images folder.listing)).processed
    ∧ (processLoop env q (find_images folder.listing)).processed
        = ((find_images folder.listing).filter
            (fun f => (remove_background env f).isSome)).map (fun f => stem f ++ "_no_bg.png")
    ∧ z.filter (fun e => !e.isImage)
        = [ZEntry.text "README.txt" (_generate_readme env.model_name env.now
            (processLoop env q (find_images folder.listing)).processed.length)]
    ∧ ∀ n d, ZEntry.image n d ∈ z →
        List.lookup n (processLoop env q (find_images folder.listing)).temp = some d := by
  obtain ⟨-, -, -, -, -, hz⟩ := process_folder_success env folder q z h
  obtain ⟨zs1, zs2, zs3⟩ := zipWrites_spec
    (processLoop env q (find_images folder.listing)).processed
    (processLoop env q (find_images folder.listing)).temp
    (fun n hn => processLoop_lookup env q (find_images folder.listing) n hn)
  have himg : imageEntries z
      = zipWrites (processLoop env q (find_images folder.listing)).processed
          (processLoop env q (find_images folder.listing)).temp := by
    rw [hz, buildZip, imageEntries, List.filter_append]
    rw [List.filter_eq_self.mpr zs3]
    simp [ZEntry.isImage]
  refine ⟨?_, ?_, ?_, ?_, ?_, ?_⟩
  · rw [hz, buildZip, List.length_append, zs1]
    rfl
  · rw [himg, zs1]
  · rw [himg, zs2]
  · rw [processLoop_processed]
    simp [outName]
  · have hnil : (zipWrites (processLoop env q (find_images folder.listing)).processed
        (processLoop env q (find_images folder.listing)).temp).filter
          (fun e => !e.isImage) = [] :=
      List.filter_eq_nil_iff.mpr (fun e he => by simp [zs3 e he])
    rw [hz, buildZip, List.filter_append, hnil]
    simp [ZEntry.isImage]
  · intro n d hmem
    rw [hz, buildZip] at hmem
    rcases List.mem_append.mp hmem with hw | ht
    · exact zipWrites_content _ _ n d hw
    · rcases List.mem_singleton.mp ht with h'
      cases h'

/-- C9: in a successful run the archive's entry order is deterministic:
the image entries appear in the order of their (sorted) source paths
restricted to the successful items, and the README manifest is the last
entry of the archive. -/
theorem archive_entry_order (env : Env) (folder : Folder) (q : String) (z : List ZEntry)
    (h : process_folder env folder q = ProcessOutcome.success z) :
    (imageEntries z).map ZEntry.entryName
      = ((find_images folder.listing).filter
          (fun f => (remove_background env f).isSome)).map outName
    ∧ List.Sorted (· ≤ ·)
        ((find_images folder.listing).filter (fun f => (remove_background env f).isSome))
    ∧ z.getLast? = some (ZEntry.text "README.txt"
        (_generate_readme env.model_name env.now
          (processLoop env q (find_images folder.listing)).processed.length)) := by
  obtain ⟨-, -, -, -, -, hz⟩ := process_folder_success env folder q z h
  obtain ⟨zs1, zs2, zs3⟩ := zipWrites_spec
    (processLoop env q (find_images folder.listing)).processed
    (processLoop env q (find_images folder.listing)).temp
    (fun n hn => processLoop_lookup env q (find_images folder.listing) n hn)
  have himg : imageEntries z
      = zipWrites (processLoop env q (find_images folder.listing)).processed
          (processLoop env q (find_images folder.listing)).temp := by
    rw [hz, buildZip, imageEntries, List.filter_append]
    rw [List.filter_eq_self.mpr zs3]
    simp [ZEntry.isImage]
  refine ⟨?_, ?_, ?_⟩
  · rw [himg, zs2, processLoop_processed]
  · exact (find_images_sorted folder.listing).filter _
  · rw [hz, buildZip]
    exact List.getLast?_concat _

/-- Concrete environment in which every item succeeds. -/
def envAllOk : Env :=
  { model_name := "u2net"
    now := "2026-10-12 00:00:00"
    read := fun s => some [s.length]
    transform := fun b => some b
    decodeRGBA := fun _ => some ⟨[[(1, 2, 3, 4)]]⟩
    blur := fun p => some p
    archiveWritable := true }

/-- Concrete folder holding `b.jpg` and `a.jpg`, listed out of order. -/
def folderAB : Folder :=
  ⟨true, true, [⟨"b.jpg", true⟩, ⟨"a.jpg", true⟩]⟩

/-- The archive the run on `folderAB` produces. -/
def zipAB : List ZEntry :=
  buildZip (processLoop envAllOk "high" (find_images folderAB.listing)).processed
    (processLoop envAllOk "high" (find_images folderAB.listing)).temp
    (_generate_readme envAllOk.model_name envAllOk.now
      (processLoop envAllOk "high" (find_images folderAB.listing)).processed.length)

set_option maxRecDepth 10000 in
/-- Witness for C3: the concrete two-image run produces 2 image entries
plus the manifest, named from the stems. -/
theorem archive_contents_witness :
    process_folder envAllOk folderAB "high" = ProcessOutcome.success zipAB
    ∧ zipAB.length
        = (processLoop envAllOk "high" (find_images folderAB.listing)).processed.length + 1
    ∧ (imageEntries zipAB).map ZEntry.entryName
        = (processLoop envAllOk "high" (find_images folderAB.listing)).processed
    ∧ (imageEntries zipAB).map ZEntry.entryName = ["a_no_bg.png", "b_no_bg.png"] := by
  have h : process_folder envAllOk folderAB "high" = ProcessOutcome.success zipAB := by decide
  have hc := archive_contents envAllOk folderAB "high" zipAB h
  exact ⟨h, hc.1, hc.2.2.1, by decide⟩

set_option maxRecDepth 10000 in
/-- Witness for C9: in the concrete two-image run the image entries come
in sorted source order and the README is last. -/
theorem archive_entry_order_witness :
    process_folder envAllOk folderAB "high" = ProcessOutcome.success zipAB
    ∧ (imageEntries zipAB).map ZEntry.entryName
        = ((find_images folderAB.listing).filter
            (fun f => (remove_background envAllOk f).isSome)).map outName
    ∧ (find_images folderAB.listing).filter
        (fun f => (remove_background envAllOk f).isSome) = ["a.jpg", "b.jpg"]
    ∧ zipAB.getLast? = some (ZEntry.text "README.txt"
        (_generate_readme envAllOk.model_name envAllOk.now
          (processLoop envAllOk "high" (find_images folderAB.listing)).processed.length)) := by
  have h : process_folder envAllOk folderAB "high" = ProcessOutcome.success zipAB := by decide
  have hc := archive_entry_order envAllOk folderAB "high" zipAB h
  exact ⟨h, hc.1, by decide, hc.2.2⟩

set_option maxRecDepth 10000 in
/-- C4 counterexample: the claim that a run interrupted mid-packaging
leaves no partial archive at the output path is false.  In the concrete
two-image run the packaging step opens the zip directly at the output
path, and after 1 of its 3 writes the disk at the output path holds a
partial archive: a file exists there (the state is not `none`) and its
content is a strict prefix of the final archive. -/
theorem archive_not_atomic_counterexample :
    process_folder envAllOk folderAB "high" = ProcessOutcome.success zipAB
    ∧ zipAB.length = 3
    ∧ (packagingDiskStates zipAB)[1]? = some (some (zipAB.take 1))
    ∧ some (zipAB.take 1) ≠ (none : Option (List ZEntry))
    ∧ zipAB.take 1 ≠ zipAB := by
  refine ⟨by decide, by decide, by decide, by decide, by decide⟩

/-- C4 as amended: the archive is not built at a temporary location and
renamed; `zipfile.ZipFile(output_zip, 'w')` (line 181) creates the file
directly at the output path, and after `k` writes the output path holds
exactly the first `k` entries, so an interrupt or failure mid-packaging
leaves that partial archive on disk; only the final state (`k` equal to
the entry count) is the complete archive. -/
theorem packaging_direct_write (entries : List ZEntry) (k : Nat)
    (h : k ≤ entries.length) :
    (packagingDiskStates entries)[k]? = some (some (entries.take k)) := by
  unfold packagingDiskStates
  rw [List.getElem?_map, List.getElem?_range (by omega)]
  rfl

set_option maxRecDepth 10000 in
/-- Witness for the amended C4 at the concrete archive and one
intermediate write count. -/
theorem packaging_direct_write_witness :
    (packagingDiskStates zipAB)[2]? = some (some (zipAB.take 2)) :=
  packaging_direct_write zipAB 2 (by decide)

/-- Helper: the exit code is 0 exactly when the model loaded, no
interrupt occurred, and `process_folder` returned `True`. -/
theorem main_run_zero_iff (w : World) :
    (main_run w).1 = 0 ↔
      (w.modelLoadOk = true ∧ w.interrupted = false
        ∧ ∃ z, process_folder w.env w.folder w.quality = ProcessOutcome.success z) := by
  unfold main_run
  cases hm : w.modelLoadOk with
  | false => simp [hm]
  | true =>
    cases hi : w.interrupted with
    | true => simp [hi]
    | false =>
      simp only [Bool.not_true, Bool.false_eq_true, if_false]
      cases ho : process_folder w.env w.folder w.quality with
      | earlyFail => simp [ho]
      | success z => simp [ho]
      | exn => simp [ho]

/-- Helper: when `process_folder` does not return `True`, the process
exits with code 1. -/
theorem main_run_one_of_not_success (w : World)
    (h : ∀ z, process_folder w.env w.folder w.quality ≠ ProcessOutcome.success z) :
    (main_run w).1 = 1 := by
  cases hm : w.modelLoadOk with
  | false => simp [main_run, hm]
  | true =>
    cases hi : w.interrupted with
    | true => simp [main_run, hm, hi]
    | false =>
      cases ho : process_folder w.env w.folder w.quality with
      | earlyFail => simp [main_run, hm, hi, ho]
      | success z => exact absurd ho (h z)
      | exn => simp [main_run, hm, hi, ho]

/-- Helper: a successful archive has at least one image entry. -/
theorem imageEntries_pos_of_success (env : Env) (folder : Folder) (q : String)
    (z : List ZEntry) (h : process_folder env folder q = ProcessOutcome.success z) :
    1 ≤ (imageEntries z).length := by
  obtain ⟨-, -, -, hpr, -, hz⟩ := process_folder_success env folder q z h
  obtain ⟨zs1, -, zs3⟩ := zipWrites_spec
    (processLoop env q (find_images folder.listing)).processed
    (processLoop env q (find_images folder.listing)).temp
    (fun n hn => processLoop_lookup env q (find_images folder.listing) n hn)
  have himg : imageEntries z
      = zipWrites (processLoop env q (find_images folder.listing)).processed
          (processLoop env q (find_images folder.listing)).temp := by
    rw [hz, buildZip, imageEntries, List.filter_append]
    rw [List.filter_eq_self.mpr zs3]
    simp [ZEntry.isImage]
  rw [himg, zs1]
  exact List.length_pos.mpr hpr

/-- C7: the process exits 0 exactly when the model loaded, the run was
not interrupted, and `process_folder` returned `True` (archive fully
written, and then at least one image succeeded); every fatal condition
exits 1: model-load failure (before any processing runs, outcome
`none`), user interrupt, nonexistent or non-directory input, zero images
found, zero images succeeding, and archive creation failure. -/
theorem main_exit_codes (w : World) :
    ((main_run w).1 = 0 ↔
      (w.modelLoadOk = true ∧ w.interrupted = false
        ∧ ∃ z, process_folder w.env w.folder w.quality = ProcessOutcome.success z))
    ∧ (∀ z, process_folder w.env w.folder w.quality = ProcessOutcome.success z →
        1 ≤ (imageEntries z).length)
    ∧ (w.modelLoadOk = false → main_run w = (1, none))
    ∧ (w.interrupted = true → (main_run w).1 = 1)
    ∧ (w.folder.exists_ = false ∨ w.folder.is_dir = false → (main_run w).1 = 1)
    ∧ (find_images w.folder.listing = [] → (main_run w).1 = 1)
    ∧ ((processLoop w.env w.quality (find_images w.folder.listing)).processed = [] →
        (main_run w).1 = 1)
    ∧ (w.env.archiveWritable = false → (main_run w).1 = 1) := by
  refine ⟨main_run_zero_iff w, imageEntries_pos_of_success w.env w.folder w.quality, ?_, ?_, ?_, ?_, ?_, ?_⟩
  · intro hm
    simp [main_run, hm]
  · intro hi
    cases hm : w.modelLoadOk with
    | false => simp [main_run, hm]
    | true => simp [main_run, hm, hi]
  · intro hbad
    refine main_run_one_of_not_success w (fun z hz => ?_)
    obtain ⟨he, hd, -, -, -, -⟩ := process_folder_success w.env w.folder w.quality z hz
    rcases hbad with hbad | hbad
    · rw [he] at hbad; cases hbad
    · rw [hd] at hbad; cases hbad
  · intro hempty
    refine main_run_one_of_not_success w (fun z hz => ?_)
    obtain ⟨-, -, hfi, -, -, -⟩ := process_folder_success w.env w.folder w.quality z hz
    exact hfi hempty
  · intro hnone
    refine main_run_one_of_not_success w (fun z hz => ?_)
    obtain ⟨-, -, -, hpr, -, -⟩ := process_folder_success w.env w.folder w.quality z hz
    exact hpr hnone
  · intro hw
    refine main_run_one_of_not_success w (fun z hz => ?_)
    obtain ⟨-, -, -, -, hwr, -⟩ := process_folder_success w.env w.folder w.quality z hz
    rw [hwr] at hw
    cases hw

set_option maxRecDepth 10000 in
/-- Witness for C7: the all-good world exits 0; the same world with a
failed model load exits 1 with no processing having run. -/
theorem main_exit_codes_witness :
    (main_run ⟨true, false, envAllOk, folderAB, "high"⟩).1 = 0
    ∧ main_run ⟨false, false, envAllOk, folderAB, "high"⟩ = (1, none)
    ∧ (main_run ⟨true, true, envAllOk, folderAB, "high"⟩).1 = 1 := by
  refine ⟨(main_exit_codes ⟨true, false, envAllOk, folderAB, "high"⟩).1.mpr
      ⟨rfl, rfl, zipAB, by decide⟩,
    (main_exit_codes ⟨false, false, envAllOk, folderAB, "high"⟩).2.2.1 rfl,
    (main_exit_codes ⟨true, true, envAllOk, folderAB, "high"⟩).2.2.2.1 rfl⟩

/-- Helper: every save recorded in the temporary directory used the save
settings derived from the run's quality string. -/
theorem processLoop_temp_kwargs (env : Env) (q : String) (files : List String) :
    ∀ p ∈ (processLoop env q files).temp, p.2.2 = save_kwargs q := by
  induction files with
  | nil => intro p hp; cases hp
  | cons f fs ih =>
    intro p hp
    cases h : remove_background env f with
    | none =>
      simp only [processLoop, h] at hp
      exact ih p hp
    | some img =>
      simp only [processLoop, h] at hp
      rcases List.mem_append.mp hp with hp' | hp'
      · exact ih p hp'
      · rw [List.mem_singleton.mp hp']

/-- Helper: which sources succeed, and hence the control flow of
`process_folder`, does not depend on the quality string. -/
def outcomeTag : ProcessOutcome → Nat
  | ProcessOutcome.earlyFail => 0
  | ProcessOutcome.success _ => 1
  | ProcessOutcome.exn => 2

theorem process_folder_tag_independent (env : Env) (folder : Folder) (q₁ q₂ : String) :
    outcomeTag (process_folder env folder q₁) = outcomeTag (process_folder env folder q₂) := by
  have hp : (processLoop env q₁ (find_images folder.listing)).processed
      = (processLoop env q₂ (find_images folder.listing)).processed := by
    rw [processLoop_processed, processLoop_processed]
  by_cases hv : folder.exists_ && folder.is_dir
  · rw [Bool.and_eq_true] at hv
    by_cases hfi : (find_images folder.listing).isEmpty
    · simp [process_folder, hv.1, hv.2, hfi]
    · by_cases hpr : (processLoop env q₁ (find_images folder.listing)).processed.isEmpty
      · have hpr2 : (processLoop env q₂ (find_images folder.listing)).processed.isEmpty := by
          rw [← hp]
          exact hpr
        simp [process_folder, hv.1, hv.2, hfi, hpr, hpr2]
      · have hpr2 : ¬(processLoop env q₂ (find_images folder.listing)).processed.isEmpty := by
          rw [← hp]
          exact hpr
        by_cases hw : env.archiveWritable
        · simp [process_folder, hv.1, hv.2, hfi, hpr, hpr2, hw, outcomeTag]
        · simp [process_folder, hv.1, hv.2, hfi, hpr, hpr2, hw, outcomeTag]
  · rw [Bool.and_eq_true] at hv
    rcases Decidable.not_and_iff_or_not.mp hv with h' | h' <;>
      simp [process_folder, Bool.eq_false_iff.mpr h']

/-- C10: `process_folder` never rejects a quality string: for any value
other than `high` and `optimized` processing proceeds exactly as it
would otherwise (same successes, same control flow), and every image is
saved as PNG with `optimize` disabled and no explicit `compress_level`;
only `high` sets `compress_level` 1 and only `optimized` sets `optimize`
with `compress_level` 6. -/
theorem quality_passthrough (env : Env) (folder : Folder) (q : String)
    (h1 : q ≠ "high") (h2 : q ≠ "optimized") :
    save_kwargs q = ⟨"PNG", false, none⟩
    ∧ save_kwargs "high" = ⟨"PNG", false, some 1⟩
    ∧ save_kwargs "optimized" = ⟨"PNG", true, some 6⟩
    ∧ (processLoop env q (find_images folder.listing)).processed
        = (processLoop env "high" (find_images folder.listing)).processed
    ∧ outcomeTag (process_folder env folder q)
        = outcomeTag (process_folder env folder "high")
    ∧ ∀ p ∈ (processLoop env q (find_images folder.listing)).temp,
        p.2.2 = save_kwargs q := by
  refine ⟨?_, by decide, by decide, ?_, ?_, ?_⟩
  · simp [save_kwargs, h1, h2]
  · rw [processLoop_processed, processLoop_processed]
  · exact process_folder_tag_independent env folder q "high"
  · exact processLoop_temp_kwargs env q (find_images folder.listing)

/-- Witness for C10 at the quality string `low`, which the CLI never
produces but `process_folder` accepts. -/
theorem quality_passthrough_witness :
    save_kwargs "low" = ⟨"PNG", false, none⟩
    ∧ (processLoop envAllOk "low" (find_images folderAB.listing)).processed
        = (processLoop envAllOk "high" (find_images folderAB.listing)).processed
    ∧ outcomeTag (process_folder envAllOk folderAB "low")
        = outcomeTag (process_folder envAllOk folderAB "high") := by
  have h := quality_passthrough envAllOk folderAB "low" (by decide) (by decide)
  exact ⟨h.1, h.2.2.2.1, h.2.2.2.2.1⟩
